import Mathlib

/-!
Shallow embedding of the detection-and-diagnosis core of
`src/extrusion-anomaly-v2.jsx`.

Modelling conventions:
* JavaScript numbers are modelled as exact rationals (`ℚ`); `Math.sqrt` is
  modelled as `Real.sqrt`.
* `parseFloat(x.toFixed(d))` is modelled as decimal rounding to `d` places,
  half away from zero (`roundTo`).
* `Array.prototype.sort` with a numeric comparator is stable (ES2019), and a
  stable comparison sort has a unique output, so it is modelled as a stable
  insertion sort (`sortDesc`) driven by the same comparator.
* The source reads object properties by string key; a missing property yields
  `undefined` and arithmetic on it yields `NaN`.  For the one claim about
  missing readings this is modelled with `Option ℚ` (`none` = `undefined`/
  `NaN`), with comparisons against `NaN` returning `false` as in JS.
-/

/-- The six monitored process parameters (the keys of the `PARAMS` object). -/
inductive Param where
  | barrel_temp
  | screw_speed
  | melt_pressure
  | line_speed
  | die_pressure
  | wall_thickness
  deriving DecidableEq

/-- One entry of the `PARAMS` configuration object (numeric fields only;
label, unit, color and short name are presentation data). -/
structure ParamCfg where
  mean : ℚ
  std : ℚ
  ucl : ℚ
  lcl : ℚ

/-- The `PARAMS` configuration table from the source. -/
def PARAMS : Param → ParamCfg
  | .barrel_temp => ⟨200, 3, 209, 191⟩
  | .screw_speed => ⟨85, 2, 91, 79⟩
  | .melt_pressure => ⟨280, 8, 304, 256⟩
  | .line_speed => ⟨45, 1.5, 49.5, 40.5⟩
  | .die_pressure => ⟨180, 5, 195, 165⟩
  | .wall_thickness => ⟨1.2, 0.05, 1.35, 1.05⟩

/-- The key list `PARAM_KEYS = Object.keys(PARAMS)`, in declaration order. -/
def PARAM_KEYS : List Param :=
  [.barrel_temp, .screw_speed, .melt_pressure, .line_speed, .die_pressure, .wall_thickness]

/-- The constant `T2_UCL = 12.6`, the χ² critical value for the joint
statistic. -/
def T2_UCL : ℚ := 12.6

/-- Rounding to the nearest integer, half away from zero, as performed by
`Number.prototype.toFixed` on the scaled value. -/
def rhalf (q : ℚ) : ℤ :=
  if 0 ≤ q then round q else -round (-q)

/-- Model of `parseFloat(x.toFixed(d))`: decimal rounding to `d` places,
half away from zero. -/
def roundTo (d : ℕ) (q : ℚ) : ℚ :=
  (rhalf (q * 10 ^ d) : ℚ) / 10 ^ d

/-- The standardized deviation `z = (point[key] - cfg.mean) / cfg.std`. -/
def zscore (pt : Param → ℚ) (k : Param) : ℚ :=
  (pt k - (PARAMS k).mean) / (PARAMS k).std

/-- Stable insertion of `x` into `l`: `x` is placed before the first element
`h` with `gt x h`; elements comparing equal keep their original order, as a
stable sort requires. -/
def insertDesc (gt : α → α → Bool) (x : α) : List α → List α
  | [] => [x]
  | h :: t => if gt x h then x :: h :: t else h :: insertDesc gt x t

/-- Model of the stable `Array.prototype.sort` with a strict "comes before"
comparator `gt` (in the source, `gt a b` is `comparator(a, b) < 0`). -/
def sortDesc (gt : α → α → Bool) (l : List α) : List α :=
  List.foldl (fun acc x => insertDesc gt x acc) [] l

/-- One entry of the list returned by `computeContributions` (numeric and
key fields; `label`, `fullLabel` and `color` are presentation data). -/
structure Contribution where
  key : Param
  value : ℚ
  z : ℚ
  direction : String
  deriving DecidableEq

/-- The entry `computeContributions` builds for one key before sorting. -/
def contribEntry (pt : Param → ℚ) (k : Param) : Contribution :=
  { key := k
    value := roundTo 4 (zscore pt k * zscore pt k)
    z := roundTo 3 (zscore pt k)
    direction := if zscore pt k > 0 then "HIGH" else "LOW" }

/-- The comparator `(a, b) => b.value - a.value`: `a` comes strictly before
`b` exactly when `a.value > b.value`. -/
def gtValue (a b : Contribution) : Bool :=
  decide (b.value < a.value)

/-- Model of `computeContributions(point)`: per-parameter squared standardized
deviations, sorted descending by value (stable). -/
def computeContributions (pt : Param → ℚ) : List Contribution :=
  sortDesc gtValue (PARAM_KEYS.map (contribEntry pt))

/-- The value `t2Full` inside `computeRBC`: the reduce over `PARAM_KEYS` summing
squared standardized deviations. -/
def t2Full (pt : Param → ℚ) : ℚ :=
  List.foldl (fun sum k => sum + zscore pt k * zscore pt k) 0 PARAM_KEYS

/-- The value `t2Without` inside `computeRBC`: the same reduce, skipping the
reconstructed key. -/
def t2Without (pt : Param → ℚ) (key : Param) : ℚ :=
  List.foldl (fun sum k => if k = key then sum else sum + zscore pt k * zscore pt k) 0 PARAM_KEYS

/-- One entry of the list returned by `computeRBC` (numeric and key fields). -/
structure RBCEntry where
  key : Param
  rbc : ℚ
  deriving DecidableEq

/-- The entry `computeRBC` builds for one key before sorting. -/
def rbcEntry (pt : Param → ℚ) (key : Param) : RBCEntry :=
  { key := key
    rbc := roundTo 4 (t2Full pt - t2Without pt key) }

/-- The comparator `(a, b) => b.rbc - a.rbc`. -/
def gtRBC (a b : RBCEntry) : Bool :=
  decide (b.rbc < a.rbc)

/-- Model of `computeRBC(point)`: reconstruction-based contributions, sorted
descending (stable). -/
def computeRBC (pt : Param → ℚ) : List RBCEntry :=
  sortDesc gtRBC (PARAM_KEYS.map (rbcEntry pt))

/-- The univariate out-of-control test applied in `generatePoint`:
`val > cfg.ucl || val < cfg.lcl` (strict inequalities). -/
def isOutOfControl (k : Param) (x : ℚ) : Bool :=
  decide (x > (PARAMS k).ucl) || decide (x < (PARAMS k).lcl)

/-- A fault mode from the `FAULT_MODES` library (diagnosis-relevant fields;
`color`, `mechanism`, `actions` and `references` are presentation data). -/
structure Fault where
  name : String
  param : Param
  delta : ℚ
  duration : ℕ
  severity : String
  signature : Param → ℚ

/-- The "Die Wear" fault mode. -/
def faultDieWear : Fault :=
  { name := "Die Wear", param := .die_pressure, delta := -28, duration := 10
    severity := "HIGH"
    signature := fun k => match k with
      | .die_pressure => 0.65
      | .melt_pressure => 0.18
      | .wall_thickness => 0.10
      | .line_speed => 0.04
      | .barrel_temp => 0.02
      | .screw_speed => 0.01 }

/-- The "Screw Slip" fault mode. -/
def faultScrewSlip : Fault :=
  { name := "Screw Slip", param := .screw_speed, delta := -12, duration := 6
    severity := "MEDIUM"
    signature := fun k => match k with
      | .screw_speed => 0.60
      | .melt_pressure => 0.20
      | .line_speed => 0.10
      | .barrel_temp => 0.06
      | .die_pressure => 0.03
      | .wall_thickness => 0.01 }

/-- The "Temp Spike" fault mode. -/
def faultTempSpike : Fault :=
  { name := "Temp Spike", param := .barrel_temp, delta := 22, duration := 5
    severity := "HIGH"
    signature := fun k => match k with
      | .barrel_temp => 0.70
      | .melt_pressure => 0.15
      | .screw_speed => 0.08
      | .die_pressure => 0.04
      | .line_speed => 0.02
      | .wall_thickness => 0.01 }

/-- The "Pressure Surge" fault mode. -/
def faultPressureSurge : Fault :=
  { name := "Pressure Surge", param := .melt_pressure, delta := 45, duration := 7
    severity := "HIGH"
    signature := fun k => match k with
      | .melt_pressure => 0.62
      | .barrel_temp => 0.14
      | .die_pressure => 0.12
      | .screw_speed => 0.07
      | .wall_thickness => 0.03
      | .line_speed => 0.02 }

/-- The "Line Slowdown" fault mode. -/
def faultLineSlowdown : Fault :=
  { name := "Line Slowdown", param := .line_speed, delta := -8, duration := 8
    severity := "MEDIUM"
    signature := fun k => match k with
      | .line_speed => 0.58
      | .wall_thickness => 0.22
      | .die_pressure => 0.10
      | .melt_pressure => 0.06
      | .screw_speed => 0.03
      | .barrel_temp => 0.01 }

/-- The "Thin Wall" fault mode. -/
def faultThinWall : Fault :=
  { name := "Thin Wall", param := .wall_thickness, delta := -0.18, duration := 6
    severity := "CRITICAL"
    signature := fun k => match k with
      | .wall_thickness => 0.68
      | .die_pressure => 0.14
      | .line_speed => 0.10
      | .melt_pressure => 0.05
      | .screw_speed => 0.02
      | .barrel_temp => 0.01 }

/-- The `FAULT_MODES` catalog, in declaration order. -/
def FAULT_MODES : List Fault :=
  [faultDieWear, faultScrewSlip, faultTempSpike, faultPressureSurge,
   faultLineSlowdown, faultThinWall]

/-- A snapshot produced by `generatePoint`: stored readings (rounded to 3
decimals), per-parameter anomaly flags, the joint statistic `t2` and its
flag. -/
structure Point where
  t : ℕ
  reading : Param → ℚ
  anomaly : Param → Bool
  t2 : ℚ
  t2_anomaly : Bool

/-- The raw (pre-rounding) value produced in `generatePoint`:
`cfg.mean + noise`, plus `activeFault.delta * fmult` on the fault's driver
parameter.  `noise` stands for the random term
`(Math.random() - 0.5) * 2 * cfg.std` and `fmult` for the random factor
`0.75 + Math.random() * 0.5`; both are inputs of the model. -/
def rawReading (fault : Option Fault) (noise : Param → ℚ) (fmult : ℚ) (k : Param) : ℚ :=
  (PARAMS k).mean + noise k +
    (match fault with
     | some f => if f.param = k then f.delta * fmult else 0
     | none => 0)

/-- The joint statistic accumulated in `generatePoint` over the stored
(rounded) readings. -/
def genT2 (pt : Param → ℚ) : ℚ :=
  List.foldl (fun s k => s + zscore pt k * zscore pt k) 0 PARAM_KEYS

/-- Model of `generatePoint(t, activeFault)`, with the two random draws as explicit
inputs.  The stored reading is the raw value rounded to 3 decimals; the
anomaly flag is computed from the raw value; `t2` is computed from the
stored readings and is itself stored rounded to 3 decimals, while the
`t2_anomaly` flag uses the unrounded sum. -/
def generatePoint (t : ℕ) (fault : Option Fault) (noise : Param → ℚ) (fmult : ℚ) : Point :=
  { t := t
    reading := fun k => roundTo 3 (rawReading fault noise fmult k)
    anomaly := fun k => isOutOfControl k (rawReading fault noise fmult k)
    t2 := roundTo 3 (genT2 (fun k => roundTo 3 (rawReading fault noise fmult k)))
    t2_anomaly := decide (genT2 (fun k => roundTo 3 (rawReading fault noise fmult k)) > T2_UCL) }

/-- The subject of an alarm event: a parameter or the T² sentinel. -/
inductive AlarmKind where
  | param (k : Param)
  | t2
  deriving DecidableEq

/-- One entry of the alarm log: tick index, subject, and the displayed
(rounded) value. -/
structure Alarm where
  t : ℕ
  kind : AlarmKind
  val : ℚ
  deriving DecidableEq

/-- The display formatting `fmt(v, unit)`: 3 decimals for mm (wall
thickness), 1 decimal otherwise. -/
def fmtVal (k : Param) (v : ℚ) : ℚ :=
  roundTo (if k = .wall_thickness then 3 else 1) v

/-- The `newAlarms` list built in `tick`: one event per out-of-control
parameter in key order, then one for the joint statistic if flagged. -/
def alarmsFor (t : ℕ) (pt : Point) : List Alarm :=
  ((PARAM_KEYS.filter (fun k => pt.anomaly k)).map
      (fun k => { t := t, kind := .param k, val := fmtVal k (pt.reading k) })) ++
    (if pt.t2_anomaly then [{ t := t, kind := .t2, val := roundTo 2 pt.t2 }] else [])

/-- Model of `arr.slice(-n)`: the `n` most recent elements (all of them when
shorter). -/
def sliceLast (n : ℕ) (l : List α) : List α :=
  l.drop (l.length - n)

/-- The mutable state owned by the Stream Controller: tick counter,
running flag, active fault and its countdown, bounded history and alarm
log. -/
structure StreamState where
  t : ℕ
  running : Bool
  fault : Option Fault
  cd : ℕ
  history : List Point
  alarms : List Alarm

/-- The initial (reset) state. -/
def initialState : StreamState :=
  { t := 0, running := false, fault := none, cd := 0, history := [], alarms := [] }

/-- The countdown block at the top of `tick`: decrement while above 1;
at exactly 1, clear the active fault and zero the countdown. -/
def stepFault (s : StreamState) : Option Fault × ℕ :=
  if s.cd > 1 then (s.fault, s.cd - 1)
  else if s.cd = 1 then (none, 0)
  else (s.fault, s.cd)

/-- One `tick`: advance the counter, update the fault countdown, generate
the snapshot (with the post-countdown fault), append it to the bounded
history (`slice(-120)`), and prepend new alarms (`slice(0, 80)`, only when
there are any). -/
def tick (noise : Param → ℚ) (fmult : ℚ) (s : StreamState) : StreamState :=
  let t := s.t + 1
  let fc := stepFault s
  let pt := generatePoint t fc.1 noise fmult
  { t := t
    running := s.running
    fault := fc.1
    cd := fc.2
    history := sliceLast 120 (s.history ++ [pt])
    alarms := if (alarmsFor t pt).length = 0 then s.alarms
              else (alarmsFor t pt ++ s.alarms).take 80 }

/-- Model of `injectFault(fault)`: arm the fault and set its countdown; re-injection
overrides the current fault and restarts the countdown. -/
def injectFault (f : Fault) (s : StreamState) : StreamState :=
  { s with fault := some f, cd := f.duration }

/-- The state after `n` ticks from `s`, the `i`-th tick using `noises i`
and `fmults i`. -/
def ticksFrom (noises : ℕ → Param → ℚ) (fmults : ℕ → ℚ) (s : StreamState) : ℕ → StreamState
  | 0 => s
  | n + 1 => tick (noises n) (fmults n) (ticksFrom noises fmults s n)

/-- Ghost view for the history bound: the full arrival sequence of the
snapshots generated by the first `n` ticks from `s`. -/
def pointsFrom (noises : ℕ → Param → ℚ) (fmults : ℕ → ℚ) (s : StreamState) : ℕ → List Point
  | 0 => []
  | n + 1 =>
      pointsFrom noises fmults s n ++
        [generatePoint ((ticksFrom noises fmults s n).t + 1)
          (stepFault (ticksFrom noises fmults s n)).1 (noises n) (fmults n)]

/-- The state after injecting `f` and running `n` ticks. -/
def afterInject (f : Fault) (s : StreamState) (noises : ℕ → Param → ℚ) (fmults : ℕ → ℚ)
    (n : ℕ) : StreamState :=
  ticksFrom noises fmults (injectFault f s) n

/-- A diagnosis entry: the spread fault record plus the confidence score. -/
structure ScoredFault where
  fault : Fault
  confidence : ℝ

/-- The total `contributions.reduce((s, c) => s + c.value, 0) || 1` used to
normalize the observed vector (`|| 1` turns a zero sum into 1). -/
def normTotal (contribs : List Contribution) : ℚ :=
  let t0 := List.foldl (fun s c => s + c.value) 0 contribs
  if t0 = 0 then 1 else t0

/-- The `norm` object built by `diagnoseFault`: each entry's key is mapped
to `value / total` (later entries overwrite earlier ones); missing keys
read as 0 (`norm[k] || 0`). -/
def normMap (contribs : List Contribution) : Param → ℚ :=
  List.foldl (fun m c => Function.update m c.key (c.value / normTotal contribs))
    (fun _ => 0) contribs

/-- The dot product accumulated per fault in `diagnoseFault`. -/
def dotProd (f : Fault) (norm : Param → ℚ) : ℚ :=
  List.foldl (fun s k => s + f.signature k * norm k) 0 PARAM_KEYS

/-- The squared magnitude of the fault signature over `PARAM_KEYS`. -/
def magFault (f : Fault) : ℚ :=
  List.foldl (fun s k => s + f.signature k * f.signature k) 0 PARAM_KEYS

/-- The squared magnitude of the normalized observed vector over
`PARAM_KEYS`. -/
def magObs (norm : Param → ℚ) : ℚ :=
  List.foldl (fun s k => s + norm k * norm k) 0 PARAM_KEYS

/-- Cosine similarity as computed in `diagnoseFault`:
`magFault && magObs ? dot / (sqrt(magFault) * sqrt(magObs)) : 0` — division
by a zero norm short-circuits to 0. -/
noncomputable def similarity (f : Fault) (norm : Param → ℚ) : ℝ :=
  if magFault f ≠ 0 ∧ magObs norm ≠ 0 then
    (dotProd f norm : ℝ) / (Real.sqrt (magFault f) * Real.sqrt (magObs norm))
  else 0

/-- Real-valued variant of `rhalf` for the confidence rounding. -/
noncomputable def rhalfR (x : ℝ) : ℤ :=
  if 0 ≤ x then round x else -round (-x)

/-- Model of `parseFloat(x.toFixed(d))` on the real-valued score. -/
noncomputable def roundToR (d : ℕ) (x : ℝ) : ℝ :=
  (rhalfR (x * 10 ^ d) : ℝ) / 10 ^ d

/-- One scored entry: `{...fault, confidence: (similarity * 100).toFixed(1)}`. -/
noncomputable def scoreEntry (norm : Param → ℚ) (f : Fault) : ScoredFault :=
  { fault := f, confidence := roundToR 1 (similarity f norm * 100) }

/-- The `scores` list of `diagnoseFault`, in catalog order before sorting. -/
noncomputable def scoresList (contribs : List Contribution) : List ScoredFault :=
  FAULT_MODES.map (scoreEntry (normMap contribs))

/-- The comparator `(a, b) => b.confidence - a.confidence`. -/
noncomputable def gtConf (a b : ScoredFault) : Bool :=
  decide (b.confidence < a.confidence)

/-- Model of `diagnoseFault(contributions)`: normalize, score every signature by
cosine similarity, and stable-sort descending by confidence. -/
noncomputable def diagnoseFault (contribs : List Contribution) : List ScoredFault :=
  sortDesc gtConf (scoresList contribs)

/-- An all-zero Contribution Vector over the registered parameters. -/
def zeroContribs : List Contribution :=
  PARAM_KEYS.map (fun k => { key := k, value := 0, z := 0, direction := "LOW" })

/-- JS-level contribution entry for a snapshot object that may lack a
reading: a missing property reads as `undefined`, arithmetic on it yields
`NaN` (modelled as `none`), and `NaN > 0` is false. -/
structure ContributionJS where
  key : Param
  value : Option ℚ
  z : Option ℚ
  direction : String
  deriving DecidableEq

/-- The entry `computeContributions` builds when the snapshot is a partial
object: on a present reading it is `contribEntry`, on a missing one every
numeric field is `NaN`. -/
def contribEntryJS (pt : Param → Option ℚ) (k : Param) : ContributionJS :=
  match pt k with
  | some x =>
      let z := (x - (PARAMS k).mean) / (PARAMS k).std
      { key := k, value := some (roundTo 4 (z * z)), z := some (roundTo 3 z)
        direction := if z > 0 then "HIGH" else "LOW" }
  | none => { key := k, value := none, z := none, direction := "LOW" }

/-- The value comparator at the JS level: a comparison involving `NaN`
returns `NaN`, which `Array.prototype.sort` treats as 0 (equal). -/
def gtValueJS (a b : ContributionJS) : Bool :=
  match a.value, b.value with
  | some x, some y => decide (y < x)
  | _, _ => false

/-- Model of `computeContributions(point)` on a possibly-partial snapshot
object. -/
def computeContributionsJS (pt : Param → Option ℚ) : List ContributionJS :=
  sortDesc gtValueJS (PARAM_KEYS.map (contribEntryJS pt))

/-- Sorted descending by `key` (the invariant maintained by `insertDesc`). -/
def SortedDescBy {K : Type _} [LinearOrder K] (key : α → K) (l : List α) : Prop :=
  List.Pairwise (fun a b => key b ≤ key a) l

/-- Noise vector of the C1 counterexample input: barrel temperature raw
value 200.06, every other reading at its nominal mean. -/
def noiseC1 : Param → ℚ
  | .barrel_temp => 0.06
  | _ => 0

/-- Sustained-excursion noise of the C6 counterexample input: barrel
temperature raw value 220 (above UCL = 209) on every tick. -/
def noiseBT20 : Param → ℚ
  | .barrel_temp => 20
  | _ => 0

/-- Raw noise of the first C10 instance: barrel temperature raw value
209.0004, just above UCL = 209. -/
def noiseC10a : Param → ℚ
  | .barrel_temp => 9.0004
  | _ => 0

/-- Raw noise of the second C10 instance: barrel temperature raw value
exactly 209 (at the control limit). -/
def noiseC10b : Param → ℚ
  | .barrel_temp => 9
  | _ => 0

/-- Partial snapshot object of the C5 counterexample: the barrel-temperature
reading is missing, every other reading is present at its nominal mean. -/
def ptMissing : Param → Option ℚ
  | .barrel_temp => none
  | k => some (PARAMS k).mean

/-! ### Helper lemmas: folds, rounding, and the stable sort -/

theorem foldl_add_map (f : α → ℚ) (a : ℚ) (l : List α) :
    List.foldl (fun s k => s + f k) a l = a + (l.map f).sum := by
  induction l generalizing a with
  | nil => simp
  | cons x xs ih => simp [ih, add_assoc]

theorem foldl_add_map_skip (p : α → Prop) [DecidablePred p] (f : α → ℚ) (a : ℚ)
    (l : List α) :
    List.foldl (fun s k => if p k then s else s + f k) a l
      = a + (l.map fun k => if p k then 0 else f k).sum := by
  induction l generalizing a with
  | nil => simp
  | cons x xs ih =>
      by_cases hx : p x <;> simp [hx, ih, add_assoc]

theorem abs_rhalf_sub (q : ℚ) : |(rhalf q : ℚ) - q| ≤ 1 / 2 := by
  unfold rhalf
  by_cases h : 0 ≤ q
  · rw [if_pos h, abs_sub_comm]
    exact abs_sub_round q
  · rw [if_neg h]
    have h2 : ((-round (-q) : ℤ) : ℚ) - q = -(((round (-q) : ℤ) : ℚ) - (-q)) := by
      push_cast
      ring
    rw [h2, abs_neg, abs_sub_comm]
    exact abs_sub_round (-q)

theorem abs_roundTo_sub (d : ℕ) (q : ℚ) : |roundTo d q - q| ≤ 1 / (2 * 10 ^ d) := by
  have hpow : (0 : ℚ) < 10 ^ d := by positivity
  have hrw : roundTo d q - q = ((rhalf (q * 10 ^ d) : ℚ) - q * 10 ^ d) / 10 ^ d := by
    rw [roundTo, div_sub' _ _ _ (ne_of_gt hpow)]
    ring_nf
  rw [hrw, abs_div, abs_of_pos hpow, div_le_iff₀ hpow]
  calc |(rhalf (q * 10 ^ d) : ℚ) - q * 10 ^ d| ≤ 1 / 2 := abs_rhalf_sub _
    _ = 1 / (2 * 10 ^ d) * 10 ^ d := by field_simp

section SortLemmas

variable {α : Type _}

theorem insertDesc_perm (gt : α → α → Bool) (x : α) (l : List α) :
    (insertDesc gt x l).Perm (x :: l) := by
  induction l with
  | nil => exact List.Perm.refl _
  | cons h t ih =>
      simp only [insertDesc]
      by_cases hc : gt x h = true
      · rw [if_pos hc]
      · rw [if_neg hc]
        exact (ih.cons h).trans (List.Perm.swap x h t)

theorem foldl_insertDesc_perm (gt : α → α → Bool) (l acc : List α) :
    (List.foldl (fun acc x => insertDesc gt x acc) acc l).Perm (acc ++ l) := by
  induction l generalizing acc with
  | nil => simp
  | cons x xs ih =>
      simp only [List.foldl_cons]
      refine (ih (insertDesc gt x acc)).trans ?_
      have h1 : (insertDesc gt x acc ++ xs).Perm ((x :: acc) ++ xs) :=
        (insertDesc_perm gt x acc).append_right xs
      exact h1.trans List.perm_middle.symm

theorem sortDesc_perm (gt : α → α → Bool) (l : List α) : (sortDesc gt l).Perm l := by
  simpa [sortDesc] using foldl_insertDesc_perm gt l []

theorem insertDesc_of_forall_not (gt : α → α → Bool) (x : α) (l : List α)
    (h : ∀ y ∈ l, gt x y = false) : insertDesc gt x l = l ++ [x] := by
  induction l with
  | nil => rfl
  | cons a t ih =>
      have ha : gt x a = false := h a (List.mem_cons_self a t)
      simp only [insertDesc]
      rw [if_neg (by simp [ha]), ih (fun y hy => h y (List.mem_cons_of_mem a hy))]
      rfl

theorem foldl_insertDesc_of_forall_not (gt : α → α → Bool) (l acc : List α)
    (hla : ∀ a ∈ l, ∀ b ∈ acc, gt a b = false)
    (hll : ∀ a ∈ l, ∀ b ∈ l, gt a b = false) :
    List.foldl (fun acc x => insertDesc gt x acc) acc l = acc ++ l := by
  induction l generalizing acc with
  | nil => simp
  | cons x xs ih =>
      simp only [List.foldl_cons]
      have hstep : insertDesc gt x acc = acc ++ [x] :=
        insertDesc_of_forall_not gt x acc (hla x (List.mem_cons_self x xs))
      have hla2 : ∀ a ∈ xs, ∀ b ∈ acc ++ [x], gt a b = false := by
        intro a ha b hb
        rcases List.mem_append.1 hb with hb | hb
        · exact hla a (List.mem_cons_of_mem x ha) b hb
        · have hbx : b = x := List.mem_singleton.1 hb
          rw [hbx]
          exact hll a (List.mem_cons_of_mem x ha) x (List.mem_cons_self x xs)
      have hll2 : ∀ a ∈ xs, ∀ b ∈ xs, gt a b = false := fun a ha b hb =>
        hll a (List.mem_cons_of_mem x ha) b (List.mem_cons_of_mem x hb)
      rw [hstep, ih (acc ++ [x]) hla2 hll2]
      simp

theorem sortDesc_of_forall_not (gt : α → α → Bool) (l : List α)
    (hll : ∀ a ∈ l, ∀ b ∈ l, gt a b = false) : sortDesc gt l = l := by
  simpa [sortDesc] using foldl_insertDesc_of_forall_not gt l [] (by simp) hll

end SortLemmas

section StableSortLemmas

variable {α : Type _} {K : Type _} [LinearOrder K]

theorem insertDesc_sorted (key : α → K) (gt : α → α → Bool)
    (hgt : ∀ a b, gt a b = true ↔ key b < key a)
    (x : α) (l : List α) (hl : SortedDescBy key l) :
    SortedDescBy key (insertDesc gt x l) := by
  induction l with
  | nil => simp [insertDesc, SortedDescBy]
  | cons h t ih =>
      rcases List.pairwise_cons.1 hl with ⟨hh, ht⟩
      simp only [insertDesc]
      by_cases hc : gt x h = true
      · rw [if_pos hc]
        refine List.pairwise_cons.2 ⟨?_, hl⟩
        intro y hy
        rcases List.mem_cons.1 hy with hyh | hy2
        · rw [hyh]
          exact le_of_lt ((hgt x h).1 hc)
        · exact le_trans (hh y hy2) (le_of_lt ((hgt x h).1 hc))
      · rw [if_neg hc]
        refine List.pairwise_cons.2 ⟨?_, ih ht⟩
        intro y hy
        have hy2 : y = x ∨ y ∈ t := by
          simpa using (insertDesc_perm gt x t).mem_iff.1 hy
        rcases hy2 with hyx | hy2
        · rw [hyx]
          exact not_lt.1 (fun hlt => hc ((hgt x h).2 hlt))
        · exact hh y hy2

theorem filter_insertDesc (key : α → K) (gt : α → α → Bool)
    (hgt : ∀ a b, gt a b = true ↔ key b < key a)
    (p : α → Bool) (c : K) (hp : ∀ e, p e = true ↔ key e = c)
    (x : α) (l : List α) (hl : SortedDescBy key l) :
    (insertDesc gt x l).filter p = l.filter p ++ [x].filter p := by
  induction l with
  | nil => simp [insertDesc]
  | cons h t ih =>
      rcases List.pairwise_cons.1 hl with ⟨hh, ht⟩
      simp only [insertDesc]
      by_cases hc : gt x h = true
      · rw [if_pos hc]
        have hxh : key h < key x := (hgt x h).1 hc
        by_cases hxc : p x = true
        · have hxkc : key x = c := (hp x).1 hxc
          have hfil : (h :: t).filter p = [] := by
            rw [List.filter_eq_nil_iff]
            intro y hy
            have hyx : key y < key x := by
              rcases List.mem_cons.1 hy with hyh | hy2
              · rw [hyh]
                exact hxh
              · exact lt_of_le_of_lt (hh y hy2) hxh
            intro hpy
            exact absurd (((hp y).1 hpy).trans hxkc.symm) (ne_of_lt hyx)
          rw [List.filter_cons, if_pos hxc, hfil]
          simp [hxc]
        · rw [List.filter_cons, if_neg hxc]
          simp only [List.filter_cons, List.filter_nil, hxc, if_neg]
          simp [hxc]
      · rw [if_neg hc]
        by_cases hhc : p h = true
        · rw [List.filter_cons, if_pos hhc, List.filter_cons, if_pos hhc, ih ht]
          rfl
        · rw [List.filter_cons, if_neg hhc, List.filter_cons, if_neg hhc, ih ht]

theorem filter_foldl_insertDesc (key : α → K) (gt : α → α → Bool)
    (hgt : ∀ a b, gt a b = true ↔ key b < key a)
    (p : α → Bool) (c : K) (hp : ∀ e, p e = true ↔ key e = c)
    (l acc : List α) (hacc : SortedDescBy key acc) :
    (List.foldl (fun acc x => insertDesc gt x acc) acc l).filter p
      = acc.filter p ++ l.filter p := by
  induction l generalizing acc with
  | nil => simp
  | cons x xs ih =>
      simp only [List.foldl_cons]
      rw [ih (insertDesc gt x acc) (insertDesc_sorted key gt hgt x acc hacc),
        filter_insertDesc key gt hgt p c hp x acc hacc,
        show (x :: xs) = [x] ++ xs from rfl, List.filter_append, List.append_assoc]

theorem filter_sortDesc (key : α → K) (gt : α → α → Bool)
    (hgt : ∀ a b, gt a b = true ↔ key b < key a)
    (p : α → Bool) (c : K) (hp : ∀ e, p e = true ↔ key e = c) (l : List α) :
    (sortDesc gt l).filter p = l.filter p := by
  simpa [sortDesc] using filter_foldl_insertDesc key gt hgt p c hp l []
    (by simp [SortedDescBy])

end StableSortLemmas

/-! ### Sum bridges between the source folds and `List.sum` -/

theorem t2Full_eq_sum (pt : Param → ℚ) :
    t2Full pt = (PARAM_KEYS.map fun k => zscore pt k * zscore pt k).sum := by
  simpa using foldl_add_map (fun k => zscore pt k * zscore pt k) 0 PARAM_KEYS

theorem genT2_eq_sum (pt : Param → ℚ) :
    genT2 pt = (PARAM_KEYS.map fun k => zscore pt k * zscore pt k).sum := by
  simpa using foldl_add_map (fun k => zscore pt k * zscore pt k) 0 PARAM_KEYS

theorem t2Without_eq_sum (pt : Param → ℚ) (key : Param) :
    t2Without pt key
      = (PARAM_KEYS.map fun k =>
          if k = key then 0 else zscore pt k * zscore pt k).sum := by
  simpa using foldl_add_map_skip (fun k => k = key)
    (fun k => zscore pt k * zscore pt k) 0 PARAM_KEYS

theorem t2_reconstruction_diff (pt : Param → ℚ) (key : Param) :
    t2Full pt - t2Without pt key = zscore pt key * zscore pt key := by
  rw [t2Full_eq_sum, t2Without_eq_sum]
  cases key <;> simp [PARAM_KEYS]

/-! ### Claim theorems -/

/-- Claim C8: the out-of-control classification applied to a reading is
`(x > UCL) || (x < LCL)` with strict inequalities; in particular a reading
exactly at UCL or at LCL is not flagged out of control, for every
registered parameter. -/
theorem out_of_control_strict_boundary :
    ∀ (k : Param) (x : ℚ),
      (isOutOfControl k x = true ↔ ((PARAMS k).ucl < x ∨ x < (PARAMS k).lcl)) ∧
      isOutOfControl k (PARAMS k).ucl = false ∧
      isOutOfControl k (PARAMS k).lcl = false := by
  intro k x
  refine ⟨by simp [isOutOfControl], ?_, ?_⟩ <;> cases k <;>
    norm_num [isOutOfControl, PARAMS]

/-- Claim C2: for every snapshot and every parameter, the RBC value computed
by `computeRBC` (full joint statistic minus the statistic with that reading
replaced by its nominal mean) equals the contribution value computed by
`computeContributions`, exactly; consequently the two output lists carry the
same key/value pairs. -/
theorem rbc_eq_contribution :
    ∀ (pt : Param → ℚ),
      (∀ k, (rbcEntry pt k).rbc = (contribEntry pt k).value) ∧
      ((computeRBC pt).map fun e => (e.key, e.rbc)).Perm
        ((computeContributions pt).map fun e => (e.key, e.value)) := by
  intro pt
  have hval : ∀ k, (rbcEntry pt k).rbc = (contribEntry pt k).value := by
    intro k
    simp [rbcEntry, contribEntry, t2_reconstruction_diff pt k]
  refine ⟨hval, ?_⟩
  have h1 : ((computeRBC pt).map fun e => (e.key, e.rbc)).Perm
      ((PARAM_KEYS.map (rbcEntry pt)).map fun e => (e.key, e.rbc)) :=
    (sortDesc_perm gtRBC _).map _
  have h2 : ((computeContributions pt).map fun e => (e.key, e.value)).Perm
      ((PARAM_KEYS.map (contribEntry pt)).map fun e => (e.key, e.value)) :=
    (sortDesc_perm gtValue _).map _
  have h3 : ((PARAM_KEYS.map (rbcEntry pt)).map fun e => (e.key, e.rbc))
      = ((PARAM_KEYS.map (contribEntry pt)).map fun e => (e.key, e.value)) := by
    simp only [List.map_map]
    refine List.map_congr_left ?_
    intro k _
    simp only [Function.comp]
    rw [hval k]
    simp [rbcEntry, contribEntry]
  rw [h3] at h1
  exact h1.trans h2.symm

theorem sum_roundTo_close (d : ℕ) (f : α → ℚ) (l : List α) :
    |(l.map fun k => roundTo d (f k)).sum - (l.map f).sum|
      ≤ l.length * (1 / (2 * 10 ^ d)) := by
  induction l with
  | nil => simp
  | cons x xs ih =>
      simp only [List.map_cons, List.sum_cons, List.length_cons]
      have h1 := abs_roundTo_sub d (f x)
      have h2 : roundTo d (f x) + (xs.map fun k => roundTo d (f k)).sum
          - (f x + (xs.map f).sum)
          = (roundTo d (f x) - f x)
            + ((xs.map fun k => roundTo d (f k)).sum - (xs.map f).sum) := by
        ring
      rw [h2]
      refine le_trans (abs_add _ _) ?_
      have h3 := add_le_add h1 ih
      push_cast
      push_cast at h3
      linarith

theorem contributions_value_sum (pt : Param → ℚ) :
    ((computeContributions pt).map Contribution.value).sum
      = (PARAM_KEYS.map fun k => roundTo 4 (zscore pt k * zscore pt k)).sum := by
  have hperm : ((computeContributions pt).map Contribution.value).Perm
      ((PARAM_KEYS.map (contribEntry pt)).map Contribution.value) :=
    (sortDesc_perm gtValue _).map _
  rw [hperm.sum_eq, List.map_map]
  refine congrArg List.sum (List.map_congr_left fun k _ => ?_)
  simp [Function.comp, contribEntry]

theorem generatePoint_reading (t : ℕ) (fault : Option Fault) (noise : Param → ℚ)
    (fmult : ℚ) (k : Param) :
    (generatePoint t fault noise fmult).reading k
      = roundTo 3 (rawReading fault noise fmult k) := rfl

theorem generatePoint_anomaly_def (t : ℕ) (fault : Option Fault) (noise : Param → ℚ)
    (fmult : ℚ) (k : Param) :
    (generatePoint t fault noise fmult).anomaly k
      = isOutOfControl k (rawReading fault noise fmult k) := rfl

theorem generatePoint_t2_def (t : ℕ) (fault : Option Fault) (noise : Param → ℚ)
    (fmult : ℚ) :
    (generatePoint t fault noise fmult).t2
      = roundTo 3 (genT2 (generatePoint t fault noise fmult).reading) := rfl

/-- Claim C1 (amended): for every snapshot, the sum of the contribution
values returned by `computeContributions` agrees with the stored `t2` of the
snapshot up to the rounding tolerance 0.0008 (each contribution is stored
rounded to 4 decimals and `t2` to 3 decimals; before rounding the two
quantities coincide exactly). -/
theorem contributions_sum_close_to_t2 :
    ∀ (t : ℕ) (fault : Option Fault) (noise : Param → ℚ) (fmult : ℚ),
      |((computeContributions (generatePoint t fault noise fmult).reading).map
          Contribution.value).sum
        - (generatePoint t fault noise fmult).t2| ≤ 0.0008 := by
  intro t fault noise fmult
  rw [contributions_value_sum, generatePoint_t2_def]
  set pt := (generatePoint t fault noise fmult).reading with hptdef
  have hS : genT2 pt = (PARAM_KEYS.map fun k => zscore pt k * zscore pt k).sum :=
    genT2_eq_sum pt
  have h1 := sum_roundTo_close 4 (fun k => zscore pt k * zscore pt k) PARAM_KEYS
  rw [← hS] at h1
  have h2 : |genT2 pt - roundTo 3 (genT2 pt)| ≤ 1 / (2 * 10 ^ 3) := by
    rw [abs_sub_comm]
    exact abs_roundTo_sub 3 (genT2 pt)
  calc |(PARAM_KEYS.map fun k => roundTo 4 (zscore pt k * zscore pt k)).sum
        - roundTo 3 (genT2 pt)|
      ≤ |(PARAM_KEYS.map fun k => roundTo 4 (zscore pt k * zscore pt k)).sum
          - genT2 pt| + |genT2 pt - roundTo 3 (genT2 pt)| := abs_sub_le _ _ _
    _ ≤ (PARAM_KEYS.length : ℚ) * (1 / (2 * 10 ^ 4)) + 1 / (2 * 10 ^ 3) :=
        add_le_add h1 h2
    _ ≤ 0.0008 := by norm_num [PARAM_KEYS]

/-- Claim C1 (counterexample): on the snapshot with barrel temperature
200.06 and all other readings nominal, the contribution values returned by
`computeContributions` sum to 0.0004 while the stored `t2` is 0 — the
decomposition identity fails exactly on the stored (rounded) fields. -/
theorem contributions_sum_exact_mismatch :
    ((computeContributions (generatePoint 1 none noiseC1 1).reading).map
        Contribution.value).sum = 0.0004 ∧
    (generatePoint 1 none noiseC1 1).t2 = 0 ∧
    ((computeContributions (generatePoint 1 none noiseC1 1).reading).map
        Contribution.value).sum ≠ (generatePoint 1 none noiseC1 1).t2 := by
  have hread : ∀ k, (generatePoint 1 none noiseC1 1).reading k
      = roundTo 3 (rawReading none noiseC1 1 k) := fun k => rfl
  have h1 : ((computeContributions (generatePoint 1 none noiseC1 1).reading).map
      Contribution.value).sum = 0.0004 := by
    rw [contributions_value_sum]
    simp only [PARAM_KEYS, List.map_cons, List.map_nil, List.sum_cons,
      List.sum_nil, hread, rawReading, noiseC1, zscore, PARAMS]
    norm_num [roundTo, rhalf, round_eq]
  have h2 : (generatePoint 1 none noiseC1 1).t2 = 0 := by
    rw [generatePoint_t2_def, genT2_eq_sum]
    simp only [PARAM_KEYS, List.map_cons, List.map_nil, List.sum_cons,
      List.sum_nil, hread, rawReading, noiseC1, zscore, PARAMS]
    norm_num [roundTo, rhalf, round_eq]
  refine ⟨h1, h2, ?_⟩
  rw [h1, h2]
  norm_num

/-- Claim C7: the ranking returned by `diagnoseFault` is a stable descending
sort of the catalog-ordered score list: for every confidence value, the
signatures that received exactly that score appear in the output in their
catalog order. -/
theorem diagnosis_tie_break_stable :
    ∀ (contribs : List Contribution) (c : ℝ),
      (diagnoseFault contribs).filter (fun e => decide (e.confidence = c))
        = (scoresList contribs).filter (fun e => decide (e.confidence = c)) := by
  intro contribs c
  exact filter_sortDesc (fun e : ScoredFault => e.confidence) gtConf
    (fun a b => by simp [gtConf]) (fun e => decide (e.confidence = c)) c
    (fun e => by simp) (scoresList contribs)

theorem normTotal_zero : normTotal zeroContribs = 1 := by
  simp [normTotal, zeroContribs, PARAM_KEYS]

theorem normMap_zero : ∀ k, normMap zeroContribs k = 0 := by
  intro k
  simp [normMap, zeroContribs, PARAM_KEYS, normTotal_zero, Function.update]

theorem magObs_zero : magObs (normMap zeroContribs) = 0 := by
  simp [magObs, PARAM_KEYS, normMap_zero]

theorem scoreEntry_zero (f : Fault) :
    scoreEntry (normMap zeroContribs) f = { fault := f, confidence := 0 } := by
  simp [scoreEntry, similarity, magObs_zero, roundToR, rhalfR]

/-- Claim C3: on an all-zero Contribution Vector, `diagnoseFault` returns
every signature with score 0, in catalog order — the zero observed norm
short-circuits the cosine similarity to 0 instead of dividing by zero. -/
theorem diagnose_all_zero_vector :
    diagnoseFault zeroContribs
      = FAULT_MODES.map (fun f => { fault := f, confidence := 0 }) := by
  have hs : scoresList zeroContribs
      = FAULT_MODES.map (fun f => { fault := f, confidence := 0 }) := by
    rw [scoresList]
    exact List.map_congr_left (fun f _ => scoreEntry_zero f)
  rw [diagnoseFault, hs]
  apply sortDesc_of_forall_not
  intro a ha b hb
  rcases List.mem_map.1 ha with ⟨fa, _, ha2⟩
  rcases List.mem_map.1 hb with ⟨fb, _, hb2⟩
  rw [← ha2, ← hb2]
  simp [gtConf]

/-! ### Stream controller structural lemmas -/

theorem tick_t (noise : Param → ℚ) (fmult : ℚ) (s : StreamState) :
    (tick noise fmult s).t = s.t + 1 := rfl

theorem tick_fault (noise : Param → ℚ) (fmult : ℚ) (s : StreamState) :
    (tick noise fmult s).fault = (stepFault s).1 := rfl

theorem tick_cd (noise : Param → ℚ) (fmult : ℚ) (s : StreamState) :
    (tick noise fmult s).cd = (stepFault s).2 := rfl

theorem tick_history (noise : Param → ℚ) (fmult : ℚ) (s : StreamState) :
    (tick noise fmult s).history
      = sliceLast 120 (s.history
          ++ [generatePoint (s.t + 1) (stepFault s).1 noise fmult]) := rfl

theorem tick_alarms_def (noise : Param → ℚ) (fmult : ℚ) (s : StreamState) :
    (tick noise fmult s).alarms
      = (if (alarmsFor (s.t + 1) (generatePoint (s.t + 1) (stepFault s).1 noise fmult)).length = 0
          then s.alarms
          else (alarmsFor (s.t + 1) (generatePoint (s.t + 1) (stepFault s).1 noise fmult)
                  ++ s.alarms).take 80) := rfl

theorem sliceLast_length (n : ℕ) (l : List α) :
    (sliceLast n l).length = min l.length n := by
  simp only [sliceLast, List.length_drop]
  omega

theorem sliceLast_append_one (n : ℕ) (l : List α) (x : α) :
    sliceLast n (sliceLast n l ++ [x]) = sliceLast n (l ++ [x]) := by
  rcases le_or_lt l.length n with h | h
  · have h0 : sliceLast n l = l := by
      rw [sliceLast, Nat.sub_eq_zero_of_le h, List.drop_zero]
    rw [h0]
  · have e1 : sliceLast n l ++ [x] = (l ++ [x]).drop (l.length - n) := by
      rw [sliceLast]
      exact (List.drop_append_of_le_length (by omega)).symm
    rw [sliceLast, e1, List.drop_drop, sliceLast]
    congr 1
    rw [List.length_drop]
    simp only [List.length_append, List.length_singleton]
    omega

theorem pointsFrom_length (noises : ℕ → Param → ℚ) (fmults : ℕ → ℚ) (s : StreamState) :
    ∀ n, (pointsFrom noises fmults s n).length = n := by
  intro n
  induction n with
  | zero => rfl
  | succ m ih => simp [pointsFrom, ih]

theorem ticksFrom_history (noises : ℕ → Param → ℚ) (fmults : ℕ → ℚ) (s : StreamState) :
    ∀ n, (ticksFrom noises fmults s (n + 1)).history
      = sliceLast 120 (s.history ++ pointsFrom noises fmults s (n + 1)) := by
  intro n
  induction n with
  | zero => rfl
  | succ m ih =>
      show (tick (noises (m + 1)) (fmults (m + 1))
          (ticksFrom noises fmults s (m + 1))).history = _
      rw [tick_history, ih, sliceLast_append_one, List.append_assoc]
      rfl

/-- Claim C9: starting from any state, after `n + 1` further snapshots the
History Window is exactly the 120 most recent entries of the full arrival
sequence (prior history followed by the generated points, in order), and its
length is `min (previous length + n + 1) 120` — in particular it never
exceeds 120. -/
theorem history_bounded_most_recent :
    ∀ (s : StreamState) (noises : ℕ → Param → ℚ) (fmults : ℕ → ℚ) (n : ℕ),
      (ticksFrom noises fmults s (n + 1)).history
          = sliceLast 120 (s.history ++ pointsFrom noises fmults s (n + 1)) ∧
      (pointsFrom noises fmults s (n + 1)).length = n + 1 ∧
      (ticksFrom noises fmults s (n + 1)).history.length
          = min (s.history.length + (n + 1)) 120 := by
  intro s noises fmults n
  refine ⟨ticksFrom_history noises fmults s n, pointsFrom_length noises fmults s (n + 1), ?_⟩
  rw [ticksFrom_history noises fmults s n, sliceLast_length, List.length_append,
    pointsFrom_length noises fmults s (n + 1)]

theorem afterInject_zero (f : Fault) (s : StreamState) (noises : ℕ → Param → ℚ)
    (fmults : ℕ → ℚ) : afterInject f s noises fmults 0 = injectFault f s := rfl

theorem afterInject_succ (f : Fault) (s : StreamState) (noises : ℕ → Param → ℚ)
    (fmults : ℕ → ℚ) (m : ℕ) :
    afterInject f s noises fmults (m + 1)
      = tick (noises m) (fmults m) (afterInject f s noises fmults m) := rfl

theorem getLast?_sliceLast_append (n : ℕ) (hn : 1 ≤ n) (l : List α) (x : α) :
    (sliceLast n (l ++ [x])).getLast? = some x := by
  rw [sliceLast]
  have hd : (l ++ [x]).length - n ≤ l.length := by
    simp only [List.length_append, List.length_singleton]
    omega
  rw [List.drop_append_of_le_length hd, List.getLast?_concat]

theorem afterInject_inv (f : Fault) (s : StreamState) (noises : ℕ → Param → ℚ)
    (fmults : ℕ → ℚ) :
    ∀ j, j < f.duration →
      (afterInject f s noises fmults j).fault = some f ∧
      (afterInject f s noises fmults j).cd = f.duration - j ∧
      (afterInject f s noises fmults j).t = s.t + j := by
  intro j
  induction j with
  | zero =>
      intro _
      exact ⟨rfl, by simp [afterInject_zero, injectFault], rfl⟩
  | succ m ih =>
      intro h
      have hm := ih (by omega)
      have hsf : stepFault (afterInject f s noises fmults m)
          = (some f, f.duration - m - 1) := by
        rw [stepFault, hm.1, hm.2.1, if_pos (by omega)]
      rw [afterInject_succ, tick_fault, tick_cd, tick_t, hsf, hm.2.2]
      refine ⟨rfl, by omega, by omega⟩

/-- Claim C4 (amended): after `inject(fault)` with duration `N`, the fault
stays armed for exactly the next `N - 1` snapshots — during ticks
`1 ≤ i ≤ N - 1` the fault is active, the countdown reads `N - i`, and the
generated snapshot carries the fault bias — while on tick `N` the countdown
(which was 1) is cleared before the snapshot is generated, so the `N`-th
snapshot does not carry the bias and the controller returns to fault-free
running (`fault = none`, countdown 0). -/
theorem injectFault_countdown_timeline :
    ∀ (f : Fault) (s : StreamState) (noises : ℕ → Param → ℚ) (fmults : ℕ → ℚ) (i : ℕ),
      (1 ≤ i → i < f.duration →
        (afterInject f s noises fmults i).fault = some f ∧
        (afterInject f s noises fmults i).cd = f.duration - i ∧
        (afterInject f s noises fmults i).history.getLast?
          = some (generatePoint (s.t + i) (some f) (noises (i - 1)) (fmults (i - 1)))) ∧
      (1 ≤ f.duration → i = f.duration →
        (afterInject f s noises fmults i).fault = none ∧
        (afterInject f s noises fmults i).cd = 0 ∧
        (afterInject f s noises fmults i).history.getLast?
          = some (generatePoint (s.t + i) none (noises (i - 1)) (fmults (i - 1)))) := by
  intro f s noises fmults i
  constructor
  · intro hi1 hiN
    obtain ⟨m, rfl⟩ : ∃ m, i = m + 1 := ⟨i - 1, by omega⟩
    have hm := afterInject_inv f s noises fmults m (by omega)
    have hsf : stepFault (afterInject f s noises fmults m)
        = (some f, f.duration - m - 1) := by
      rw [stepFault, hm.1, hm.2.1, if_pos (by omega)]
    refine ⟨?_, ?_, ?_⟩
    · rw [afterInject_succ, tick_fault, hsf]
    · rw [afterInject_succ, tick_cd, hsf]
      omega
    · rw [afterInject_succ, tick_history, hsf, hm.2.2,
        getLast?_sliceLast_append 120 (by omega), Nat.add_assoc]
      simp
  · intro hN hiN
    subst hiN
    obtain ⟨m, hm1⟩ : ∃ m, f.duration = m + 1 := ⟨f.duration - 1, by omega⟩
    have hm := afterInject_inv f s noises fmults m (by omega)
    have hsf : stepFault (afterInject f s noises fmults m) = (none, 0) := by
      rw [stepFault, hm.2.1, if_neg (by omega), if_pos (by omega)]
    rw [hm1, afterInject_succ, tick_fault, tick_cd, tick_history, hsf, hm.2.2]
    refine ⟨rfl, rfl, ?_⟩
    rw [getLast?_sliceLast_append 120 (by omega), Nat.add_assoc]
    simp

/-- Claim C4 (witness): injecting the Temp Spike fault (duration 5) into a
running stream and ticking twice leaves the fault active with countdown 3,
the latest snapshot having been generated under the fault. -/
theorem injectFault_countdown_timeline_witness :
    (afterInject faultTempSpike { initialState with running := true }
        (fun _ _ => 0) (fun _ => 1) 2).fault = some faultTempSpike ∧
    (afterInject faultTempSpike { initialState with running := true }
        (fun _ _ => 0) (fun _ => 1) 2).cd = 3 ∧
    (afterInject faultTempSpike { initialState with running := true }
        (fun _ _ => 0) (fun _ => 1) 2).history.getLast?
      = some (generatePoint 2 (some faultTempSpike) (fun _ => 0) 1) := by
  have h := (injectFault_countdown_timeline faultTempSpike
    { initialState with running := true } (fun _ _ => 0) (fun _ => 1) 2).1
    (by decide) (by decide)
  simpa [faultTempSpike, initialState] using h

/-- Claim C4 (counterexample): with the Temp Spike fault (duration N = 5,
delta +22 on barrel temperature) injected into a running stream, zero noise
and fault multiplier 1, the 4th snapshot after injection carries the fault
bias (barrel reading 222) but the 5th does not (barrel reading 200, the
nominal mean) — only N − 1 = 4 of "the next N snapshots" carry the bias. -/
theorem fault_bias_stops_one_tick_early :
    (afterInject faultTempSpike { initialState with running := true }
        (fun _ _ => 0) (fun _ => 1) 4).history.getLast?
      = some (generatePoint 4 (some faultTempSpike) (fun _ => 0) 1) ∧
    (afterInject faultTempSpike { initialState with running := true }
        (fun _ _ => 0) (fun _ => 1) 5).history.getLast?
      = some (generatePoint 5 none (fun _ => 0) 1) ∧
    (afterInject faultTempSpike { initialState with running := true }
        (fun _ _ => 0) (fun _ => 1) 5).fault = none ∧
    (afterInject faultTempSpike { initialState with running := true }
        (fun _ _ => 0) (fun _ => 1) 5).cd = 0 ∧
    (generatePoint 4 (some faultTempSpike) (fun _ => 0) 1).reading .barrel_temp = 222 ∧
    (generatePoint 5 none (fun _ => 0) 1).reading .barrel_temp = 200 ∧
    (200 : ℚ) ≠ (PARAMS .barrel_temp).mean + faultTempSpike.delta * 1 := by
  refine ⟨rfl, rfl, rfl, rfl, ?_, ?_, ?_⟩
  · rw [generatePoint_reading]
    simp only [rawReading, faultTempSpike, PARAMS]
    norm_num [roundTo, rhalf, round_eq]
  · rw [generatePoint_reading]
    simp only [rawReading, PARAMS]
    norm_num [roundTo, rhalf, round_eq]
  · simp only [faultTempSpike, PARAMS]
    norm_num

theorem param_mem_PARAM_KEYS : ∀ k : Param, k ∈ PARAM_KEYS := by
  intro k
  cases k <;> simp [PARAM_KEYS]

theorem PARAM_KEYS_nodup : PARAM_KEYS.Nodup := by
  simp [PARAM_KEYS]

theorem alarmsFor_length_le (t : ℕ) (pt : Point) : (alarmsFor t pt).length ≤ 7 := by
  rw [alarmsFor]
  have h1 := List.length_filter_le (fun k => pt.anomaly k) PARAM_KEYS
  have h2 : (if pt.t2_anomaly = true
      then [({ t := t, kind := .t2, val := roundTo 2 pt.t2 } : Alarm)]
      else []).length ≤ 1 := by
    by_cases h : pt.t2_anomaly = true <;> simp [h]
  have h6 : PARAM_KEYS.length = 6 := rfl
  rw [h6] at h1
  simp only [List.length_append, List.length_map]
  omega

theorem countP_eq_in_filter [DecidableEq α] (p : α → Bool) (k : α) :
    ∀ l : List α, l.Nodup → k ∈ l →
      ((l.filter p).countP (fun j => decide (j = k))) = if p k = true then 1 else 0 := by
  intro l
  induction l with
  | nil => simp
  | cons x xs ih =>
      intro hnd hk
      rcases List.nodup_cons.1 hnd with ⟨hx, hxs⟩
      rw [List.filter_cons]
      by_cases hxk : x = k
      · subst hxk
        have hknot : ∀ j ∈ xs.filter p, ¬ ((decide (j = x)) = true) := by
          intro j hj
          have hjx : j ∈ xs := List.mem_of_mem_filter hj
          simp only [decide_eq_true_eq]
          intro hjk
          rw [hjk] at hjx
          exact hx hjx
        have hzero : (xs.filter p).countP (fun j => decide (j = x)) = 0 :=
          List.countP_eq_zero.2 hknot
        by_cases hpx : p x = true
        · rw [if_pos hpx, List.countP_cons, hzero, if_pos hpx]
          simp
        · rw [if_neg hpx, hzero, if_neg hpx]
      · have hk2 : k ∈ xs := by
          rcases List.mem_cons.1 hk with hk1 | hk2
          · exact absurd hk1.symm hxk
          · exact hk2
        by_cases hpx : p x = true
        · rw [if_pos hpx, List.countP_cons, ih hxs hk2]
          simp [hxk]
        · rw [if_neg hpx, ih hxs hk2]

theorem alarmsFor_countP_param (t : ℕ) (pt : Point) (k : Param) :
    (alarmsFor t pt).countP (fun a => decide (a.kind = AlarmKind.param k))
      = if pt.anomaly k = true then 1 else 0 := by
  rw [alarmsFor, List.countP_append, List.countP_map]
  have ht2 : (if pt.t2_anomaly = true
      then [({ t := t, kind := .t2, val := roundTo 2 pt.t2 } : Alarm)]
      else []).countP (fun a => decide (a.kind = AlarmKind.param k)) = 0 := by
    by_cases h : pt.t2_anomaly = true <;> simp [h]
  rw [ht2, Nat.add_zero]
  have hcomp : ((fun a => decide (a.kind = AlarmKind.param k))
        ∘ (fun j => ({ t := t, kind := .param j, val := fmtVal j (pt.reading j) } : Alarm)))
      = fun j => decide (j = k) := by
    funext j
    simp [AlarmKind.param.injEq]
  rw [hcomp]
  exact countP_eq_in_filter (fun j => pt.anomaly j) k PARAM_KEYS PARAM_KEYS_nodup
    (param_mem_PARAM_KEYS k)

theorem alarmsFor_countP_t2 (t : ℕ) (pt : Point) :
    (alarmsFor t pt).countP (fun a => decide (a.kind = AlarmKind.t2))
      = if pt.t2_anomaly = true then 1 else 0 := by
  rw [alarmsFor, List.countP_append, List.countP_map]
  have hcomp : ((fun a => decide (a.kind = AlarmKind.t2))
        ∘ (fun j => ({ t := t, kind := .param j, val := fmtVal j (pt.reading j) } : Alarm)))
      = fun _ => false := by
    funext j
    simp
  rw [hcomp]
  by_cases h : pt.t2_anomaly = true <;> simp [h]

theorem tick_alarms_append (s : StreamState) (noise : Param → ℚ) (fmult : ℚ)
    (h : s.alarms.length + 7 ≤ 80) :
    (tick noise fmult s).alarms
      = alarmsFor (s.t + 1) (generatePoint (s.t + 1) (stepFault s).1 noise fmult)
        ++ s.alarms := by
  rw [tick_alarms_def]
  by_cases he : (alarmsFor (s.t + 1)
      (generatePoint (s.t + 1) (stepFault s).1 noise fmult)).length = 0
  · rw [if_pos he, List.length_eq_zero.1 he]
    simp
  · rw [if_neg he]
    apply List.take_of_length_le
    have h7 := alarmsFor_length_le (s.t + 1)
      (generatePoint (s.t + 1) (stepFault s).1 noise fmult)
    simp only [List.length_append]
    omega

/-- Claim C6 (amended): on every accepted snapshot the Stream Controller
prepends one alarm event for every currently out-of-control parameter —
whether or not it was already out of control on the previous snapshot — plus
one event for the joint statistic when it is out of control (under the
no-truncation hypothesis that the log stays within its 80-entry bound). -/
theorem tick_alarm_counts :
    ∀ (s : StreamState) (noise : Param → ℚ) (fmult : ℚ),
      s.alarms.length + 7 ≤ 80 →
      (tick noise fmult s).alarms
          = alarmsFor (s.t + 1)
              (generatePoint (s.t + 1) (stepFault s).1 noise fmult) ++ s.alarms ∧
      (∀ k, (alarmsFor (s.t + 1)
            (generatePoint (s.t + 1) (stepFault s).1 noise fmult)).countP
            (fun a => decide (a.kind = AlarmKind.param k))
          = if (generatePoint (s.t + 1) (stepFault s).1 noise fmult).anomaly k = true
            then 1 else 0) ∧
      (alarmsFor (s.t + 1)
            (generatePoint (s.t + 1) (stepFault s).1 noise fmult)).countP
            (fun a => decide (a.kind = AlarmKind.t2))
          = if (generatePoint (s.t + 1) (stepFault s).1 noise fmult).t2_anomaly = true
            then 1 else 0 := by
  intro s noise fmult h
  exact ⟨tick_alarms_append s noise fmult h,
    fun k => alarmsFor_countP_param _ _ k, alarmsFor_countP_t2 _ _⟩

/-- Claim C6 (witness): the alarm-appending law instantiated on the initial
state with zero noise. -/
theorem tick_alarm_counts_witness :
    (tick (fun _ => 0) 1 initialState).alarms
        = alarmsFor 1 (generatePoint 1 none (fun _ => 0) 1)
          ++ initialState.alarms ∧
    (∀ k, (alarmsFor 1 (generatePoint 1 none (fun _ => 0) 1)).countP
          (fun a => decide (a.kind = AlarmKind.param k))
        = if (generatePoint 1 none (fun _ => 0) 1).anomaly k = true then 1 else 0) ∧
    (alarmsFor 1 (generatePoint 1 none (fun _ => 0) 1)).countP
          (fun a => decide (a.kind = AlarmKind.t2))
        = if (generatePoint 1 none (fun _ => 0) 1).t2_anomaly = true then 1 else 0 :=
  tick_alarm_counts initialState (fun _ => 0) 1 (by decide)

/-- Claim C6 (counterexample): with barrel temperature out of control on two
consecutive snapshots, the alarm log holds TWO barrel-temperature events
after the second tick — a parameter already out of control on the previous
snapshot produces another event on the next one. -/
theorem repeated_excursion_logs_two_alarms :
    ((ticksFrom (fun _ => noiseBT20) (fun _ => 1)
        { initialState with running := true } 2).alarms.countP
      (fun a => decide (a.kind = AlarmKind.param .barrel_temp))) = 2 := by
  have h0len : ({ initialState with running := true } : StreamState).alarms.length
      + 7 ≤ 80 := by decide
  have hT : ({ initialState with running := true } : StreamState).t = 0 := rfl
  have hA : ({ initialState with running := true } : StreamState).alarms = [] := rfl
  have hpt1 : generatePoint (({ initialState with running := true } : StreamState).t + 1)
      (stepFault ({ initialState with running := true } : StreamState)).1 noiseBT20 1
      = generatePoint 1 none noiseBT20 1 := rfl
  have ha1 : (tick noiseBT20 1 { initialState with running := true }).alarms
      = alarmsFor 1 (generatePoint 1 none noiseBT20 1) := by
    rw [tick_alarms_append _ _ _ h0len, hpt1, hT, Nat.zero_add, hA, List.append_nil]
  have hlen1 : (tick noiseBT20 1
      { initialState with running := true }).alarms.length + 7 ≤ 80 := by
    rw [ha1]
    have := alarmsFor_length_le 1 (generatePoint 1 none noiseBT20 1)
    omega
  have hrun : ticksFrom (fun _ => noiseBT20) (fun _ => 1)
      { initialState with running := true } 2
      = tick noiseBT20 1 (tick noiseBT20 1 { initialState with running := true }) := rfl
  have hpt2 : generatePoint
      ((tick noiseBT20 1 { initialState with running := true }).t + 1)
      (stepFault (tick noiseBT20 1 { initialState with running := true })).1
      noiseBT20 1
      = generatePoint 2 none noiseBT20 1 := rfl
  rw [hrun, tick_alarms_append _ _ _ hlen1, List.countP_append, alarmsFor_countP_param,
    hpt2, ha1, alarmsFor_countP_param]
  have hbt : ∀ t, (generatePoint t none noiseBT20 1).anomaly .barrel_temp = true := by
    intro t
    rw [generatePoint_anomaly_def]
    simp only [rawReading, noiseBT20, PARAMS, isOutOfControl]
    norm_num
  rw [hbt, hbt]
  simp

/-- Claim C10: `generatePoint` computes the stored out-of-control flag from
the raw pre-rounding value while storing the reading rounded to 3 decimals:
raw 209.0004 stores reading 209 with flag true although the strict test on
the stored reading is false, and raw 209 stores the same reading 209 with
flag false — the flag is not a function of the stored reading. -/
theorem anomaly_flag_from_raw_not_stored :
    (generatePoint 1 none noiseC10a 1).reading .barrel_temp = 209 ∧
    (generatePoint 1 none noiseC10b 1).reading .barrel_temp = 209 ∧
    (generatePoint 1 none noiseC10a 1).anomaly .barrel_temp = true ∧
    (generatePoint 1 none noiseC10b 1).anomaly .barrel_temp = false ∧
    isOutOfControl .barrel_temp
      ((generatePoint 1 none noiseC10a 1).reading .barrel_temp) = false := by
  have h1 : (generatePoint 1 none noiseC10a 1).reading .barrel_temp = 209 := by
    rw [generatePoint_reading]
    simp only [rawReading, noiseC10a, PARAMS]
    norm_num [roundTo, rhalf, round_eq]
  have h2 : (generatePoint 1 none noiseC10b 1).reading .barrel_temp = 209 := by
    rw [generatePoint_reading]
    simp only [rawReading, noiseC10b, PARAMS]
    norm_num [roundTo, rhalf, round_eq]
  have h3 : (generatePoint 1 none noiseC10a 1).anomaly .barrel_temp = true := by
    rw [generatePoint_anomaly_def]
    simp only [rawReading, noiseC10a, PARAMS]
    norm_num [isOutOfControl, PARAMS]
  have h4 : (generatePoint 1 none noiseC10b 1).anomaly .barrel_temp = false := by
    rw [generatePoint_anomaly_def]
    simp only [rawReading, noiseC10b, PARAMS]
    norm_num [isOutOfControl, PARAMS]
  have h5 : isOutOfControl .barrel_temp 209 = false := by
    norm_num [isOutOfControl, PARAMS]
  exact ⟨h1, h2, h3, h4, by rw [h1]; exact h5⟩

/-- Claim C5 (counterexample): `computeContributions` applied to a snapshot
missing the barrel-temperature reading is not rejected and reports no
error: it returns an ordinary six-entry list whose entry for the missing
parameter carries NaN (`none`) numeric fields, the other parameters
processed normally. -/
theorem missing_reading_not_rejected :
    computeContributionsJS ptMissing
      = [{ key := .barrel_temp, value := none, z := none, direction := "LOW" },
         { key := .screw_speed, value := some 0, z := some 0, direction := "LOW" },
         { key := .melt_pressure, value := some 0, z := some 0, direction := "LOW" },
         { key := .line_speed, value := some 0, z := some 0, direction := "LOW" },
         { key := .die_pressure, value := some 0, z := some 0, direction := "LOW" },
         { key := .wall_thickness, value := some 0, z := some 0, direction := "LOW" }] := by
  have hentry : PARAM_KEYS.map (contribEntryJS ptMissing)
      = [{ key := .barrel_temp, value := none, z := none, direction := "LOW" },
         { key := .screw_speed, value := some 0, z := some 0, direction := "LOW" },
         { key := .melt_pressure, value := some 0, z := some 0, direction := "LOW" },
         { key := .line_speed, value := some 0, z := some 0, direction := "LOW" },
         { key := .die_pressure, value := some 0, z := some 0, direction := "LOW" },
         { key := .wall_thickness, value := some 0, z := some 0, direction := "LOW" }] := by
    simp only [PARAM_KEYS, List.map_cons, List.map_nil, contribEntryJS, ptMissing, PARAMS]
    norm_num [roundTo, rhalf, round_eq]
  rw [computeContributionsJS, hentry]
  apply sortDesc_of_forall_not
  decide

/-- Claim C5 (amended): the implementation has no missing-reading rejection
path. At the JS object level, `computeContributions` on any partial
snapshot still returns one entry per registered parameter (its keys are a
permutation of the registry), and `tick` unconditionally advances the tick
counter and appends a snapshot to the history — no error is ever surfaced
and no tick is rejected. -/
theorem no_missing_reading_rejection :
    (∀ pt : Param → Option ℚ,
      ((computeContributionsJS pt).map ContributionJS.key).Perm PARAM_KEYS) ∧
    (∀ (noise : Param → ℚ) (fmult : ℚ) (s : StreamState),
      (tick noise fmult s).t = s.t + 1 ∧
      (tick noise fmult s).history.length = min (s.history.length + 1) 120) := by
  constructor
  · intro pt
    have h1 : ((computeContributionsJS pt).map ContributionJS.key).Perm
        ((PARAM_KEYS.map (contribEntryJS pt)).map ContributionJS.key) :=
      (sortDesc_perm gtValueJS _).map _
    have h2 : (PARAM_KEYS.map (contribEntryJS pt)).map ContributionJS.key
        = PARAM_KEYS := by
      rw [List.map_map]
      have hco : (ContributionJS.key ∘ contribEntryJS pt) = id := by
        funext k
        cases hk : pt k <;> simp [contribEntryJS, hk, Function.comp]
      rw [hco, List.map_id]
    rw [h2] at h1
    exact h1
  · intro noise fmult s
    refine ⟨rfl, ?_⟩
    rw [tick_history, sliceLast_length, List.length_append, List.length_singleton]

